import Mathlib

/-
Verification development for the MacVideoCombinator repository
(src/video_combinator.py, the MoviePy-based variant, called v1 below, and
src/video_combinator2.py, the FFmpeg-subprocess variant, called v2 below).

Each Python function relevant to the claims is shallowly embedded as an
executable Lean definition.  External effects (subprocess outcomes, the
filesystem listing of a folder, the cooperative stop flag) are passed in
explicitly as parameters or oracle functions; numeric Python floats are
modelled as exact rationals.
-/

namespace VideoCombinator

/- ------------------------------------------------------------------ -/
/- Natural sort key (v1 get_sorted_files lines 359-371,
   v2 _get_sorted_files lines 326-336; the two bodies are identical).

   natural_sort_key(s) =
     [int(text) if text.isdigit() else text.lower()
      for text in re.split('([0-9]+)', s)]                            -/
/- ------------------------------------------------------------------ -/

/-- Python character-level decimal-digit value, as used by `str.isdigit` /
`int(...)`.  `str.isdigit` is true for every Unicode decimal digit, not just
ASCII `0`-`9`; we model the ASCII digits plus, as representatives of the
non-ASCII Unicode decimal digits, the ARABIC-INDIC digits U+0660..U+0669
(for which Python's `int` also succeeds, e.g. `int("٣") == 3`). -/
def python_digit_val? (c : Char) : Option ℕ :=
  if c.isDigit then some (c.toNat - 48)
  else if 0x660 ≤ c.toNat ∧ c.toNat ≤ 0x669 then some (c.toNat - 0x660)
  else none

/-- Models Python `c.isdigit()` for one character. -/
def python_isdigit_char (c : Char) : Bool := (python_digit_val? c).isSome

/-- Models Python `s.isdigit()`: nonempty and every character is a digit. -/
def python_isdigit (cs : List Char) : Bool :=
  !cs.isEmpty && cs.all python_isdigit_char

/-- Models Python `int(s)` on a string of decimal digits. -/
def python_int (cs : List Char) : ℕ :=
  cs.foldl (fun a c => a * 10 + ((python_digit_val? c).getD 0)) 0

/-- The regex class `[0-9]` of `re.split('([0-9]+)', s)`: ASCII digits only. -/
def is_ascii_digit (c : Char) : Bool := c.isDigit

/-- One splitting round of `re.split('([0-9]+)', s)`, with explicit fuel so
that the definition is structurally recursive (and hence evaluates inside
the kernel).  Each round emits the maximal non-digit run and then the
maximal digit run; a fuel of `cs.length + 1` always suffices because every
round past the first element consumes at least one digit character. -/
def split_digit_runs_fuel : ℕ → List Char → List (List Char)
  | 0, _ => []
  | fuel + 1, cs =>
    let text := cs.takeWhile (fun c => !is_ascii_digit c)
    let rest := cs.dropWhile (fun c => !is_ascii_digit c)
    match rest with
    | [] => [text]
    | d :: tl =>
      let digits := List.takeWhile is_ascii_digit (d :: tl)
      let rest2 := List.dropWhile is_ascii_digit (d :: tl)
      text :: digits :: split_digit_runs_fuel fuel rest2

/-- `re.split('([0-9]+)', s)`: alternating (possibly empty) non-digit text
runs and (nonempty) digit runs, beginning and ending with a text run. -/
def split_digit_runs (cs : List Char) : List (List Char) :=
  split_digit_runs_fuel (cs.length + 1) cs

/-- One element of the Python sort key: either an `int` or a `str`. -/
inductive SortKeyElem where
  | intElem : ℕ → SortKeyElem
  | strElem : List Char → SortKeyElem
deriving DecidableEq, Repr

/-- Models Python `c.lower()` for the ASCII range (other characters are
unchanged, as `Char.toLower` only maps `A`-`Z`). -/
def python_lower (cs : List Char) : List Char := cs.map Char.toLower

/-- `int(text) if text.isdigit() else text.lower()` applied to one run. -/
def key_elem_of (cs : List Char) : SortKeyElem :=
  if python_isdigit cs then .intElem (python_int cs)
  else .strElem (python_lower cs)

/-- The full `natural_sort_key`. -/
def natural_sort_key (cs : List Char) : List SortKeyElem :=
  (split_digit_runs cs).map key_elem_of

/-- Python comparison of two key elements: comparing an `int` with a `str`
raises `TypeError`, modelled as `none`. -/
def compare_elem : SortKeyElem → SortKeyElem → Option Ordering
  | .intElem m, .intElem n => some (compare m n)
  | .strElem s, .strElem t => some (compare s t)
  | _, _ => none

/-- Python lexicographic comparison of two keys (`list.__lt__` style),
propagating a `TypeError` on any mixed-type element comparison. -/
def compare_keys : List SortKeyElem → List SortKeyElem → Option Ordering
  | [], [] => some .eq
  | [], _ :: _ => some .lt
  | _ :: _, [] => some .gt
  | a :: s, b :: t =>
    match compare_elem a b with
    | none => none
    | some .eq => compare_keys s t
    | some o => some o

/-- The kind pattern the claim asserts for every key: starting from parity
`false`, elements at even positions are `str` tokens and elements at odd
positions are `int` tokens. -/
def kinds_from : Bool → List SortKeyElem → Prop
  | _, [] => True
  | false, x :: t => (∃ s, x = .strElem s) ∧ kinds_from true t
  | true, x :: t => (∃ n, x = .intElem n) ∧ kinds_from false t

/-- A filename is ASCII-digit-clean when every character that Python counts
as a decimal digit is an ASCII digit `0`-`9` (i.e. no character such as
U+0663 appears). -/
def ascii_digit_clean (cs : List Char) : Prop :=
  ∀ c ∈ cs, (python_digit_val? c).isSome → is_ascii_digit c

instance (cs : List Char) : Decidable (ascii_digit_clean cs) := by
  unfold ascii_digit_clean; infer_instance

/- ------------------------------------------------------------------ -/
/- File filtering (v1 get_sorted_files, v2 _get_sorted_files):
   keep a file when file.lower().endswith(ext) for some supported ext.  -/
/- ------------------------------------------------------------------ -/

/-- Supported image extensions used during processing (v2 line 498,
v1 line 580; the preview additionally allows `.gif`). -/
def image_exts : List String := [".jpg", ".jpeg", ".png", ".bmp", ".tiff"]

/-- Supported audio extensions (v2 line 499, v1 line 581). -/
def audio_exts : List String := [".mp3", ".wav", ".aac", ".m4a", ".flac", ".ogg"]

/-- The filter step of `_get_sorted_files` over a folder listing:
`any(file.lower().endswith(ext) for ext in extensions)`.  The subsequent
natural sort permutes but never adds or removes entries, so emptiness and
membership of the result are decided here. -/
def matching_files (listing : List String) (exts : List String) : List String :=
  listing.filter (fun f => exts.any (fun ext => ext.data.isSuffixOf (python_lower f.data)))

/- ------------------------------------------------------------------ -/
/- Encoder selection.
   v2: _choose_codec (video_combinator2.py lines 669-685).
   v1: _auto_select_encoder (video_combinator.py lines 971-1005),
       with per-class performance stats (lines 52-55, 1007-1017).      -/
/- ------------------------------------------------------------------ -/

/-- v2 `_choose_codec(encoder_choice, codec_pref)`: returns
`(codec, encoder_type)` with `encoder_type` either `"hardware"` or
`"software"`.  The `hardware_encoders` list comes from the startup
capability probe (`system_info['hardware_encoders']`). -/
def choose_codec (hardware_encoders : List String)
    (encoder_choice codec_pref : String) : String × String :=
  let hw_available := hardware_encoders.length > 0
  if encoder_choice = "software" then ("libx264", "software")
  else if encoder_choice = "hardware" then
    if hw_available then
      if codec_pref = "hevc" && hardware_encoders.contains "hevc_videotoolbox" then
        ("hevc_videotoolbox", "hardware")
      else ("h264_videotoolbox", "hardware")
    else ("libx264", "software")
  else
    if hw_available then
      if codec_pref = "hevc" && hardware_encoders.contains "hevc_videotoolbox" then
        ("hevc_videotoolbox", "hardware")
      else ("h264_videotoolbox", "hardware")
    else ("libx264", "software")

/-- One class of v1 `encoder_performance` (lines 52-55): accumulated encode
time, accumulated video duration, and sample count.  Times and durations are
Python floats, modelled as exact rationals. -/
structure PerfClassStats where
  total_time : ℚ
  total_duration : ℚ
  count : ℕ

/-- v1 `encoder_performance`: one `PerfClassStats` per codec class. -/
structure EncoderPerf where
  hardware : PerfClassStats
  software : PerfClassStats

/-- v1 `system_info` fields consumed by encoder selection. -/
structure SystemInfo1 where
  hardware_encoders : List String
  recommended_codec : String

/-- v1 `_auto_select_encoder(video_duration)` (lines 971-1005).  The Python
literal `1.1` is modelled as the exact rational `11/10`. -/
def auto_select_encoder (si : SystemInfo1) (perf : EncoderPerf)
    (video_duration : ℚ) : String × String :=
  if si.hardware_encoders.isEmpty then ("libx264", "software")
  else if video_duration < 5 then ("libx264", "software")
  else if 0 < perf.hardware.count ∧ 0 < perf.software.count then
    let hw_speed : ℚ :=
      if 0 < perf.hardware.total_time then
        perf.hardware.total_duration / perf.hardware.total_time else 0
    let sw_speed : ℚ :=
      if 0 < perf.software.total_time then
        perf.software.total_duration / perf.software.total_time else 0
    if sw_speed * (11 / 10) < hw_speed then (si.recommended_codec, "hardware")
    else ("libx264", "software")
  else if 10 ≤ video_duration then (si.recommended_codec, "hardware")
  else ("libx264", "software")

/-- Modelled from the spec: the adaptive reference policy of spec section 4.3
(the policy the claim asserts the code's auto selection equals).  Note that in
Lean `x / 0 = 0`, matching the spec/code convention that a class with zero
accumulated time has speed 0. -/
def adaptive_policy_spec (hw_available : Bool) (hw_samples sw_samples : ℕ)
    (hw_total_duration hw_total_time sw_total_duration sw_total_time : ℚ)
    (duration : ℚ) : String :=
  if !hw_available then "software"
  else if duration < 5 then "software"
  else if 1 ≤ hw_samples ∧ 1 ≤ sw_samples then
    let hw_speed := hw_total_duration / hw_total_time
    let sw_speed := sw_total_duration / sw_total_time
    if sw_speed * (11 / 10) < hw_speed then "hardware" else "software"
  else if 10 ≤ duration then "hardware" else "software"

/- ------------------------------------------------------------------ -/
/- Segment encoding (v2 _encode_segment lines 687-766,
   _resolution_to_scale_filter lines 661-667,
   _run_subprocess lines 768-789) and
   v1 _safe_encode_video lines 868-921.                                -/
/- ------------------------------------------------------------------ -/

/-- v2 `_resolution_to_scale_filter`. -/
def resolution_to_scale_filter (resolution : String) : String :=
  if resolution = "720p" then "scale=-2:720:flags=bicubic"
  else if resolution = "1440p" then "scale=-2:1440:flags=lanczos"
  else "scale=-2:1080:flags=bicubic"

/-- The encode parameters of one produced segment file, as assembled by
`_encode_segment`: the `-c:v` encoder, the compressed stream codec that the
encoder emits (`h264_videotoolbox` and `libx264` both emit H.264 streams,
`hevc_videotoolbox` emits HEVC), the `-profile:v` value, the `-pix_fmt`,
the `-vf` scale filter and the GOP length `-g`. -/
structure SegmentParams where
  codec_name : String
  stream_codec : String
  profile : String
  pix_fmt : String
  scale_filter : String
  gop : ℕ
deriving DecidableEq, Repr

/-- The parameters attached to the v2 encode command for a given `-c:v`
encoder (lines 702-742): `h264_videotoolbox` gets profile high / level 4.2,
`hevc_videotoolbox` profile main, `libx264` profile high / level 4.2 with
crf 19; all get `yuv420p`, the resolution's scale filter and `gop = fps*2`. -/
def segment_params_for (codec_name : String) (resolution : String)
    (fps : ℕ) : SegmentParams :=
  { codec_name := codec_name
  , stream_codec := if codec_name = "hevc_videotoolbox" then "hevc" else "h264"
  , profile := if codec_name = "hevc_videotoolbox" then "main" else "high"
  , pix_fmt := "yuv420p"
  , scale_filter := resolution_to_scale_filter resolution
  , gop := fps * 2 }

/-- Outcome of one external process run (v2 `_run_subprocess`). -/
inductive ProcOutcome where
  | completed : ℤ → ProcOutcome
  | timedOut : ProcOutcome
  | raisedErr : ProcOutcome
deriving DecidableEq, Repr

/-- v2 `_run_subprocess` success: `True` exactly when the process completed
within the timeout with exit code 0; a timeout or exception returns `False`
(lines 780-789). -/
def run_subprocess_result : ProcOutcome → Bool
  | .completed rc => rc == 0
  | .timedOut => false
  | .raisedErr => false

/-- v2 `_run_subprocess` timeout in seconds: the passed value, or the
default `60 * 10` when the caller passes none (lines 770-771).  Both
`_encode_segment` and the concat call pass no timeout. -/
def run_subprocess_timeout (timeout_arg : Option ℕ) : ℕ :=
  timeout_arg.getD (60 * 10)

/-- The timeout applied by v2 to a single segment encode: `_encode_segment`
calls `_run_subprocess` without a timeout argument. -/
def encode_segment_timeout : ℕ := run_subprocess_timeout none

/-- v2 `_encode_segment`: the segment file's parameters, given the outcome
of the primary encode attempt and (if reached) of the libx264 fallback
attempt.  `none` means the segment failed and produced no file.  The
fallback command (lines 749-764) is rebuilt with `-c:v libx264` and the
software ladder, keeping the same scale filter, fps, pix_fmt and GOP. -/
def encode_segment_result (hardware_encoders : List String)
    (encoder_choice codec_pref resolution : String) (fps : ℕ)
    (primary_ok fallback_ok : Bool) : Option SegmentParams :=
  let cc := choose_codec hardware_encoders encoder_choice codec_pref
  if primary_ok then some (segment_params_for cc.1 resolution fps)
  else if cc.2 = "hardware" then
    if fallback_ok then some (segment_params_for "libx264" resolution fps)
    else none
  else none

/-- The sequence of `-c:v` encoders v2 `_encode_segment` actually invokes:
the chosen encoder, then — only when that run fails and the chosen class is
hardware — exactly one further run with `libx264`. -/
def encode_segment_attempts (hardware_encoders : List String)
    (encoder_choice codec_pref : String) (primary_ok : Bool) : List String :=
  let cc := choose_codec hardware_encoders encoder_choice codec_pref
  [cc.1] ++ (if !primary_ok && cc.2 == "hardware" then ["libx264"] else [])

/-- Boolean substring test used to model Python `'videotoolbox' in codec`. -/
def contains_sub (pat s : List Char) : Bool :=
  s.tails.any (fun t => pat.isPrefixOf t)

/-- Python `'videotoolbox' in codec` (v1 lines 905, 916). -/
def is_videotoolbox (codec : String) : Bool :=
  contains_sub "videotoolbox".data codec.data

/-- Outcome of the primary v1 encode attempt inside `_safe_encode_video`:
the wrapped `write_videofile` thread finished successfully, raised, or was
still alive when the timeout elapsed. -/
inductive EncodeOutcome where
  | ok : EncodeOutcome
  | errored : EncodeOutcome
  | timedOut : EncodeOutcome
deriving DecidableEq, Repr

/-- v1 `_safe_encode_video` result (lines 868-921): success of the primary
attempt, or — on error or timeout when the codec is a VideoToolbox one —
the success of the single `_fallback_to_software_encoding` libx264 attempt;
`False` otherwise. -/
def safe_encode_video (codec : String) (primary : EncodeOutcome)
    (fallback_ok : Bool) : Bool :=
  match primary with
  | .ok => true
  | .timedOut => if is_videotoolbox codec then fallback_ok else false
  | .errored => if is_videotoolbox codec then fallback_ok else false

/-- Number of libx264 fallback attempts v1 `_safe_encode_video` makes. -/
def safe_encode_fallback_attempts (codec : String)
    (primary : EncodeOutcome) : ℕ :=
  match primary with
  | .ok => 0
  | .errored => if is_videotoolbox codec then 1 else 0
  | .timedOut => if is_videotoolbox codec then 1 else 0

/-- v1 encode timeout (line 894): `max(120, video_duration * 10)` seconds. -/
def safe_encode_timeout (video_duration : ℚ) : ℚ :=
  max 120 (video_duration * 10)

/- ------------------------------------------------------------------ -/
/- The per-group segment loop and concat
   (v2 _create_video_for_range lines 538-641).                         -/
/- ------------------------------------------------------------------ -/

/-- The segment indices the v2 loop (lines 572-604) actually reaches:
it walks `range(start_idx, end_idx)` in order and breaks out at the first
index where the stop flag is observed set. -/
def segment_indices_attempted (start_idx end_idx : ℕ)
    (stop_at_seg : ℕ → Bool) : List ℕ :=
  (List.range' start_idx (end_idx - start_idx)).takeWhile (fun i => !stop_at_seg i)

/-- The ordered list of segment parameter records whose files end up in the
group's concat manifest (`seg_paths`): an index contributes when it is
reached, both its image and audio file are present (`available`), and
`_encode_segment` succeeds for it — possibly via the libx264 fallback.
Indices whose encode fails are skipped (`continue`) and the loop moves on. -/
def concat_inputs (hardware_encoders : List String)
    (encoder_choice codec_pref resolution : String) (fps : ℕ)
    (start_idx end_idx : ℕ) (stop_at_seg available : ℕ → Bool)
    (primary_ok fallback_ok : ℕ → Bool) : List SegmentParams :=
  ((segment_indices_attempted start_idx end_idx stop_at_seg).filter available).filterMap
    (fun i => encode_segment_result hardware_encoders encoder_choice codec_pref
      resolution fps (primary_ok i) (fallback_ok i))

/- ------------------------------------------------------------------ -/
/- Job admission and job processing
   (v2 _add_job lines 398-433, _process_job lines 493-536;
   v1 add_job lines 447-482 is identical in its validation).           -/
/- ------------------------------------------------------------------ -/

/-- One folder argument as `_add_job` sees it: whether the text field is
nonempty (`not images_folder`) and whether `os.path.exists` holds. -/
structure FolderArg where
  path_set : Bool
  path_exists : Bool

/-- v2 `_add_job` / v1 `add_job` admission (lines 404-412 / 455-465): the
job is built and put on the queue exactly when both input folders are set
and exist and the output folder is set.  The folders' contents are not
consulted at all at this point. -/
def add_job_queued (images audio : FolderArg) (output_set : Bool) : Bool :=
  images.path_set && images.path_exists &&
    audio.path_set && audio.path_exists && output_set

/-- Job status (源: 等待中 / 處理中 / 完成 / 已取消 / 錯誤). -/
inductive JobStatus where
  | waiting : JobStatus
  | processing : JobStatus
  | completed : JobStatus
  | cancelled : JobStatus
  | failed : JobStatus
deriving DecidableEq, Repr

/-- The v2 group loop of `_process_job` (lines 520-529), walking the groups
in order: before starting group `g` the cooperative stop flag is read
(`stop_at g` is its observed value at that boundary); if set, the job is
marked 已取消 (Cancelled) and the function returns at once.  Otherwise
`_create_video_for_range` runs for the group: its output file exists
afterwards exactly when the group had at least one successful segment
(`has_segs g`) and the concat subprocess succeeded (`concat_ok g`) — a
failed concat deletes the partial output and, crucially, raises nothing,
so the loop always continues.  The second component collects the 0-based
indices of groups whose output file exists when the function returns.
`remaining` counts the groups still to run, so the recursion is structural. -/
def process_groups (stop_at has_segs concat_ok : ℕ → Bool) :
    ℕ → ℕ → JobStatus × List ℕ
  | 0, _ => (.completed, [])
  | remaining + 1, g =>
    if stop_at g then (.cancelled, [])
    else
      let rest := process_groups stop_at has_segs concat_ok remaining (g + 1)
      (rest.1, (if has_segs g && concat_ok g then [g] else []) ++ rest.2)

/-- v2 `_process_job` (lines 493-536).  The folder listings are filtered by
the supported extensions; an empty image or audio result raises, which the
enclosing `try` turns into status 錯誤 (Failed).  Otherwise, with
`n = max(len(images), len(audios))`: under `merge_all` one group spanning
`[0, n)` runs after a single stop-flag check, else
`(n + group_size - 1) / group_size` windows run through
`process_groups`.  Any uncaught error is also caught at this boundary, so
the function is total and the worker loop always proceeds to the next job. -/
def process_job (merge_all : Bool) (group_size : ℕ)
    (image_listing audio_listing : List String)
    (stop_at has_segs concat_ok : ℕ → Bool) : JobStatus × List ℕ :=
  let imgs := matching_files image_listing image_exts
  let auds := matching_files audio_listing audio_exts
  if imgs.isEmpty then (.failed, [])
  else if auds.isEmpty then (.failed, [])
  else
    let n := max imgs.length auds.length
    if merge_all then
      if stop_at 0 then (.cancelled, [])
      else (.completed, if has_segs 0 && concat_ok 0 then [0] else [])
    else
      process_groups stop_at has_segs concat_ok ((n + group_size - 1) / group_size) 0

/-- A queued job with the oracles describing its run, for the worker loop. -/
structure JobSpec where
  merge_all : Bool
  group_size : ℕ
  image_listing : List String
  audio_listing : List String
  stop_at : ℕ → Bool
  has_segs : ℕ → Bool
  concat_ok : ℕ → Bool

/-- The worker loop (v2 `_worker_loop` lines 468-491): jobs are pulled FIFO
and processed one at a time; `_process_job` catches every exception, so each
queued job reaches a terminal status regardless of earlier jobs' outcomes. -/
def worker_run (jobs : List JobSpec) : List (JobStatus × List ℕ) :=
  jobs.map (fun j => process_job j.merge_all j.group_size j.image_listing
    j.audio_listing j.stop_at j.has_segs j.concat_ok)

/-- The group index windows built by the v2 `_process_job` loop
(lines 508-527): one window `[0, n)` under `merge_all`, otherwise
`total_groups = (n + group_size - 1) // group_size` windows with
`start = g * group_size`, `end = min(start + group_size, n)`. -/
def group_ranges (merge_all : Bool) (n group_size : ℕ) : List (ℕ × ℕ) :=
  if merge_all then [(0, n)]
  else (List.range ((n + group_size - 1) / group_size)).map
    (fun g => (g * group_size, min (g * group_size + group_size) n))

/- ------------------------------------------------------------------ -/
/- Group output filenames
   (v2 _create_video_for_range lines 547-564,
   v1 create_video_for_group lines 718-737; identical logic).          -/
/- ------------------------------------------------------------------ -/

/-- Python `os.path.splitext(f)[0]` for a bare filename (no separators):
the extension starts at the last dot, unless every character before that
dot is itself a dot (leading dots never begin an extension). -/
def splitext_root (s : List Char) : List Char :=
  match ((s.enum.filter (fun p => p.2 = '.')).map (fun p => p.1)).getLast? with
  | none => s
  | some d => if (s.take d).any (fun c => decide (c ≠ '.')) then s.take d else s

/-- The stem of one image filename, `os.path.splitext(image_files[i])[0]`. -/
def stem_of (f : String) : String := ⟨splitext_root f.data⟩

/-- The stems of the matched images of a group: the loop at lines 550-555
visits `i` in `range(start_idx, end_idx)` and considers exactly those with
`i < len(image_files)`. -/
def matched_stems (image_files : List String) (start_idx end_idx : ℕ) :
    List String :=
  ((List.range' start_idx (end_idx - start_idx)).filter
    (fun i => i < image_files.length)).map (fun i => stem_of (image_files.getD i ""))

/-- The first/last accumulation of the same loop: `first_img_name` is set by
the first iteration that finds it still empty, `last_img_name` by every
iteration (Python truthiness: the empty string is falsy). -/
def first_last_stem (stems : List String) : String × String :=
  stems.foldl (fun fl s => (if fl.1 = "" then s else fl.1, s)) ("", "")

/-- Python `f"{n:03d}"`: decimal digits, zero-padded to at least width 3. -/
def pad3 (n : ℕ) : String :=
  let s := toString n
  if s.length < 3 then String.mk (List.replicate (3 - s.length) '0') ++ s else s

/-- The group's output filename (lines 557-563): `<first>.mp4` when the two
accumulated stems are equal, `<first>-<last>.mp4` when they differ, and the
`video_group_<NNN>.mp4` fallback when either accumulated stem is empty
(i.e. when no image index was matched). -/
def group_output_filename (image_files : List String)
    (start_idx end_idx group_num : ℕ) : String :=
  let fl := first_last_stem (matched_stems image_files start_idx end_idx)
  if fl.1 ≠ "" ∧ fl.2 ≠ "" then
    if fl.1 = fl.2 then fl.1 ++ ".mp4" else fl.1 ++ "-" ++ fl.2 ++ ".mp4"
  else "video_group_" ++ pad3 group_num ++ ".mp4"

/- ------------------------------------------------------------------ -/
/- Concrete demonstration inputs.                                      -/
/- ------------------------------------------------------------------ -/

/-- A filename whose leading run consists of ARABIC-INDIC digits
(U+0663, value 3): `٣٣1.png`. -/
def arabic_demo : List Char := ['٣', '٣', '1', '.', 'p', 'n', 'g']

/-- An ordinary ASCII filename with the same shape: `ab1.png`. -/
def ascii_demo : List Char := ['a', 'b', '1', '.', 'p', 'n', 'g']

/-- The segment parameter lists reaching one concat call in the following
run: Apple-Silicon capability list with both VideoToolbox encoders, a job
with `encoder_choice = "auto"`, `codec_preference = "hevc"`, 1080p, 24 fps,
one group of the two segments 0 and 1, both with files present, where the
hardware encode of segment 0 fails (its libx264 fallback succeeds) and the
hardware encode of segment 1 succeeds. -/
def hevc_fallback_demo : List SegmentParams :=
  concat_inputs ["h264_videotoolbox", "hevc_videotoolbox"] "auto" "hevc" "1080p" 24
    0 2 (fun _ => false) (fun _ => true) (fun i => decide (i ≠ 0)) (fun _ => true)

/-- Three image files for the grouping/naming/cancellation examples. -/
def demo_images : List String := ["a1.png", "a2.png", "a3.png"]

/-- Three audio files pairing with `demo_images`. -/
def demo_audios : List String := ["x1.mp3", "x2.mp3", "x3.mp3"]

end VideoCombinator

namespace VideoCombinator

/- ================================================================== -/
/- Theorems                                                            -/
/- ================================================================== -/

/-- C1: the claim states that one concat invocation never receives segment
files with differing resolution, pixel format, codec or profile, even when
some segments were produced by the hardware-to-software fallback.  The code
violates this: in `hevc_fallback_demo` the group's chosen encoder is
`hevc_videotoolbox`, segment 0 falls back to `libx264` (an H.264 stream with
profile high) while segment 1 stays HEVC with profile main, and both reach
the same `concat -c copy` call. -/
theorem C1_hevc_fallback_mixes_concat_params :
    hevc_fallback_demo.map (fun p => (p.stream_codec, p.profile)) =
      [("h264", "high"), ("hevc", "main")] ∧
    ¬ (∀ p ∈ hevc_fallback_demo, ∀ q ∈ hevc_fallback_demo,
        p.stream_codec = q.stream_codec ∧ p.profile = q.profile) := by
  decide

/-- C2 counterexample: v2's `_choose_codec` under policy `auto` ignores the
segment duration and the performance history entirely — with a hardware
encoder available it returns the hardware class, whereas the claim's
adaptive policy returns `"software"` for a 3-second segment with no
recorded samples regardless of hardware availability. -/
theorem C2_counterexample :
    (choose_codec ["h264_videotoolbox"] "auto" "h264").2 = "hardware" ∧
    adaptive_policy_spec true 0 0 0 0 0 0 3 = "software" ∧
    ("hardware" : String) ≠ "software" := by
  refine ⟨by decide, ?_, by decide⟩
  norm_num [adaptive_policy_spec]

/-- C3 counterexample: a job whose (existing) image folder contains no file
with a supported extension is accepted onto the queue — `_add_job` checks
only that the folders exist — and the missing-files condition is noticed
only when `_process_job` later runs, marking the job 錯誤 (Failed). -/
theorem C3_counterexample :
    add_job_queued ⟨true, true⟩ ⟨true, true⟩ true = true ∧
    matching_files ["notes.txt"] image_exts = [] ∧
    process_job false 1 ["notes.txt"] ["x1.mp3"] (fun _ => false)
      (fun _ => true) (fun _ => true) = (.failed, []) := by
  decide

/-- C5 counterexample: with three matched pairs, `group_size = 2` and the
concat of group 0 failing, `_process_job` finishes the job with status 完成
(Completed), not Failed: `_create_video_for_range` deletes the partial
output and swallows the failure, so nothing reaches the job-level handler. -/
theorem C5_counterexample :
    process_job false 2 demo_images demo_audios (fun _ => false)
      (fun _ => true) (fun g => decide (g ≠ 0)) = (.completed, [1]) ∧
    JobStatus.completed ≠ JobStatus.failed := by
  decide

/-- C6 counterexample: the claim says the timeout of a single segment encode
is `max(120, 10 × duration)`; v2's `_encode_segment` runs through
`_run_subprocess` with no timeout argument, i.e. a fixed 600 seconds — for a
2-second segment the claimed bound is 120 s, not 600 s. -/
theorem C6_counterexample :
    encode_segment_timeout = 600 ∧
    safe_encode_timeout 2 = 120 ∧
    (600 : ℚ) ≠ 120 := by
  refine ⟨by decide, ?_, by norm_num⟩
  norm_num [safe_encode_timeout]

/-- C6 (amended): v1's `_safe_encode_video` bounds the (whole-clip) encode by
`max(120, 10 × duration)` seconds, v2 bounds every segment encode by a fixed
600 seconds, and in v2 an encode hitting the timeout is reported as failure. -/
theorem C6_timeouts :
    (∀ d : ℚ, safe_encode_timeout d = max 120 (10 * d)) ∧
    encode_segment_timeout = 600 ∧
    run_subprocess_result ProcOutcome.timedOut = false := by
  refine ⟨fun d => ?_, by decide, by decide⟩
  rw [safe_encode_timeout, mul_comm]

/-- C2 (amended): v1's `_auto_select_encoder` — the selection the spec adopts
as the reference — agrees with the adaptive policy in every case: software
when no hardware encoder exists, software below 5 s, the 10%-hysteresis
speed comparison when both classes have at least one sample (speed =
total_duration / total_time, 0 for a class with zero accumulated time), and
otherwise hardware exactly when the duration is at least 10 s.  v2's
`_choose_codec` does not follow this policy (see the counterexample). -/
theorem C2_auto_selection_matches_adaptive_policy
    (si : SystemInfo1) (perf : EncoderPerf) (d : ℚ)
    (h1 : 0 ≤ perf.hardware.total_time) (h2 : 0 ≤ perf.software.total_time) :
    (auto_select_encoder si perf d).2 =
      adaptive_policy_spec (!si.hardware_encoders.isEmpty)
        perf.hardware.count perf.software.count
        perf.hardware.total_duration perf.hardware.total_time
        perf.software.total_duration perf.software.total_time d := by
  have hw_eq : (if 0 < perf.hardware.total_time then
      perf.hardware.total_duration / perf.hardware.total_time else 0) =
      perf.hardware.total_duration / perf.hardware.total_time := by
    rcases eq_or_lt_of_le h1 with h | h
    · rw [if_neg (by rw [← h]; exact lt_irrefl 0), ← h, div_zero]
    · rw [if_pos h]
  have sw_eq : (if 0 < perf.software.total_time then
      perf.software.total_duration / perf.software.total_time else 0) =
      perf.software.total_duration / perf.software.total_time := by
    rcases eq_or_lt_of_le h2 with h | h
    · rw [if_neg (by rw [← h]; exact lt_irrefl 0), ← h, div_zero]
    · rw [if_pos h]
  unfold auto_select_encoder adaptive_policy_spec
  simp only [Bool.not_not, hw_eq, sw_eq, Nat.lt_iff_add_one_le, Nat.zero_add]
  split_ifs <;> rfl

/-- C2 witness: at a concrete configuration — one hardware encoder, no
recorded samples, duration 12 s — the theorem applies, and the common value
of the code's selection and the adaptive policy is `"hardware"`. -/
theorem C2_witness :
    (auto_select_encoder ⟨["h264_videotoolbox"], "h264_videotoolbox"⟩
        ⟨⟨0, 0, 0⟩, ⟨0, 0, 0⟩⟩ 12).2 =
      adaptive_policy_spec true 0 0 0 0 0 0 12 ∧
    (auto_select_encoder ⟨["h264_videotoolbox"], "h264_videotoolbox"⟩
        ⟨⟨0, 0, 0⟩, ⟨0, 0, 0⟩⟩ 12).2 = "hardware" :=
  ⟨C2_auto_selection_matches_adaptive_policy
      ⟨["h264_videotoolbox"], "h264_videotoolbox"⟩ ⟨⟨0, 0, 0⟩, ⟨0, 0, 0⟩⟩ 12
      (le_refl 0) (le_refl 0),
   by norm_num [auto_select_encoder]⟩

/-- C3 (amended): the pre-queue validation checks only that the folders
exist; the absence of supported files is detected when the job is processed:
`_process_job` raises, the job-boundary handler marks the job 錯誤 (Failed),
and no group output is produced — the failure is logged, never silent. -/
theorem C3_missing_files_detected_at_processing
    (merge_all : Bool) (group_size : ℕ)
    (image_listing audio_listing : List String)
    (stop_at has_segs concat_ok : ℕ → Bool)
    (h : matching_files image_listing image_exts = [] ∨
         matching_files audio_listing audio_exts = []) :
    process_job merge_all group_size image_listing audio_listing
      stop_at has_segs concat_ok = (.failed, []) := by
  unfold process_job
  rcases h with h | h
  · rw [h]; rfl
  · by_cases hi : (matching_files image_listing image_exts).isEmpty
    · rw [if_pos hi]
    · rw [if_neg hi, h]; rfl

/-- C3 witness: a folder listing with a single unsupported file is detected
at processing time and the job ends 錯誤 (Failed). -/
theorem C3_witness :
    process_job false 1 ["notes.txt", "readme.md"] ["x1.mp3"] (fun _ => false)
      (fun _ => true) (fun _ => true) = (.failed, []) :=
  C3_missing_files_detected_at_processing false 1 ["notes.txt", "readme.md"]
    ["x1.mp3"] (fun _ => false) (fun _ => true) (fun _ => true)
    (Or.inl (by decide))

/-- When the stop flag is never observed set, the group loop finishes the
job as 完成 (Completed) and a group's output exists exactly when that group
itself had segments and a successful concat — other groups' failures do not
affect it. -/
theorem process_groups_no_stop (stop_at has_segs concat_ok : ℕ → Bool)
    (hns : ∀ g, stop_at g = false) :
    ∀ (r g : ℕ),
      (process_groups stop_at has_segs concat_ok r g).1 = .completed ∧
      ∀ x, x ∈ (process_groups stop_at has_segs concat_ok r g).2 ↔
        (g ≤ x ∧ x < g + r ∧ has_segs x = true ∧ concat_ok x = true) := by
  intro r
  induction r with
  | zero =>
    intro g
    refine ⟨rfl, fun x => ?_⟩
    simp only [process_groups, List.not_mem_nil, false_iff]
    omega
  | succ r ih =>
    intro g
    have hrec := ih (g + 1)
    constructor
    · show (process_groups stop_at has_segs concat_ok (r + 1) g).1 = .completed
      rw [process_groups, hns g]
      simpa using hrec.1
    · intro x
      rw [process_groups, hns g]
      simp only [Bool.false_eq_true, if_false, List.mem_append]
      rw [hrec.2 x]
      by_cases hg : (has_segs g && concat_ok g) = true
      · rw [if_pos hg, List.mem_singleton]
        rcases Bool.and_eq_true_iff.mp hg with ⟨hg1, hg2⟩
        constructor
        · rintro (h | ⟨ha, hb, hc, hd⟩)
          · exact ⟨by omega, by omega, by rw [h]; exact hg1, by rw [h]; exact hg2⟩
          · exact ⟨by omega, by omega, hc, hd⟩
        · rintro ⟨ha, hb, hc, hd⟩
          rcases eq_or_lt_of_le ha with heq | hgx
          · exact Or.inl heq.symm
          · exact Or.inr ⟨by omega, by omega, hc, hd⟩
      · rw [if_neg hg, List.mem_nil_iff]
        constructor
        · rintro (h | ⟨ha, hb, hc, hd⟩)
          · exact absurd h (by simp)
          · exact ⟨by omega, by omega, hc, hd⟩
        · rintro ⟨ha, hb, hc, hd⟩
          rcases eq_or_lt_of_le ha with heq | hgx
          · rw [← heq] at hc hd
            exact absurd (by rw [hc, hd]; rfl : (has_segs g && concat_ok g) = true) hg
          · exact Or.inr ⟨by omega, by omega, hc, hd⟩

/-- If the stop flag is first observed set at the boundary of the `m`-th
group to run (counting from `g`), and every earlier group kept its output,
the loop returns 已取消 (Cancelled) with exactly those earlier outputs. -/
theorem process_groups_cancel (stop_at has_segs concat_ok : ℕ → Bool) :
    ∀ (m r g : ℕ), m < r →
      (∀ o, o < m → stop_at (g + o) = false) →
      (∀ o, o < m → has_segs (g + o) = true ∧ concat_ok (g + o) = true) →
      stop_at (g + m) = true →
      process_groups stop_at has_segs concat_ok r g =
        (.cancelled, List.range' g m) := by
  intro m
  induction m with
  | zero =>
    intro r g hr _ _ hstop
    obtain ⟨r', rfl⟩ : ∃ r', r = r' + 1 := ⟨r - 1, by omega⟩
    rw [process_groups, if_pos (by simpa using hstop)]
    rfl
  | succ m ih =>
    intro r g hr hbefore hok hstop
    obtain ⟨r', rfl⟩ : ∃ r', r = r' + 1 := ⟨r - 1, by omega⟩
    have h0 : stop_at g = false := by simpa using hbefore 0 (Nat.succ_pos m)
    rw [process_groups, h0]
    simp only [Bool.false_eq_true, if_false]
    have hrec : process_groups stop_at has_segs concat_ok r' (g + 1) =
        (.cancelled, List.range' (g + 1) m) := by
      refine ih r' (g + 1) (by omega) ?_ ?_ ?_
      · intro o ho
        have := hbefore (o + 1) (by omega)
        rwa [(by omega : g + (o + 1) = g + 1 + o)] at this
      · intro o ho
        have := hok (o + 1) (by omega)
        rwa [(by omega : g + (o + 1) = g + 1 + o)] at this
      · rwa [(by omega : g + (m + 1) = g + 1 + m)] at hstop
    rw [hrec]
    have hg : (has_segs g && concat_ok g) = true := by
      rcases hok 0 (Nat.succ_pos m) with ⟨ha, hb⟩
      simp only [Nat.add_zero] at ha hb
      rw [ha, hb]; rfl
    rw [if_pos hg, List.range'_succ]
    rfl

/-- C5 (amended): when the concat of some group fails, that group's output
file is removed (the group contributes no output), but the job is NOT marked
Failed — the failure is swallowed inside `_create_video_for_range`, every
other group still runs and keeps its own output exactly according to its own
encode/concat outcome, the job ends 完成 (Completed), and the worker
processes the rest of the queue unchanged. -/
theorem C5_concat_failure_behavior
    (group_size : ℕ) (image_listing audio_listing : List String)
    (has_segs concat_ok : ℕ → Bool) (gstar : ℕ)
    (himg : matching_files image_listing image_exts ≠ [])
    (haud : matching_files audio_listing audio_exts ≠ [])
    (hfail : concat_ok gstar = false) :
    (process_job false group_size image_listing audio_listing (fun _ => false)
        has_segs concat_ok).1 = .completed ∧
    gstar ∉ (process_job false group_size image_listing audio_listing
        (fun _ => false) has_segs concat_ok).2 ∧
    (∀ x, x ∈ (process_job false group_size image_listing audio_listing
        (fun _ => false) has_segs concat_ok).2 ↔
      (x < (max (matching_files image_listing image_exts).length
              (matching_files audio_listing audio_exts).length
            + group_size - 1) / group_size ∧
       has_segs x = true ∧ concat_ok x = true)) ∧
    (∀ (j : JobSpec) (rest : List JobSpec),
      worker_run (j :: rest) =
        process_job j.merge_all j.group_size j.image_listing j.audio_listing
          j.stop_at j.has_segs j.concat_ok :: worker_run rest) := by
  have hpg := process_groups_no_stop (fun _ => false) has_segs concat_ok
    (fun _ => rfl)
    ((max (matching_files image_listing image_exts).length
        (matching_files audio_listing audio_exts).length
      + group_size - 1) / group_size) 0
  have hjob : process_job false group_size image_listing audio_listing
      (fun _ => false) has_segs concat_ok =
      process_groups (fun _ => false) has_segs concat_ok
        ((max (matching_files image_listing image_exts).length
            (matching_files audio_listing audio_exts).length
          + group_size - 1) / group_size) 0 := by
    unfold process_job
    rw [if_neg (by simp [himg]), if_neg (by simp [haud])]
    rfl
  refine ⟨by rw [hjob]; exact hpg.1, ?_, ?_, fun j rest => rfl⟩
  · rw [hjob]
    intro hmem
    rcases (hpg.2 gstar).mp hmem with ⟨-, -, -, hck⟩
    rw [hfail] at hck
    exact Bool.false_ne_true hck
  · intro x
    rw [hjob, hpg.2 x]
    constructor
    · rintro ⟨-, hb, hc, hd⟩
      exact ⟨by omega, hc, hd⟩
    · rintro ⟨hb, hc, hd⟩
      exact ⟨Nat.zero_le x, by omega, hc, hd⟩

/-- C5 witness: in the three-pair, `group_size = 2` run whose group 0 concat
fails, the theorem yields status 完成 (Completed) and no group-0 output. -/
theorem C5_witness :
    (process_job false 2 demo_images demo_audios (fun _ => false)
        (fun _ => true) (fun g => decide (g ≠ 0))).1 = .completed ∧
    0 ∉ (process_job false 2 demo_images demo_audios (fun _ => false)
        (fun _ => true) (fun g => decide (g ≠ 0))).2 := by
  have h := C5_concat_failure_behavior 2 demo_images demo_audios
    (fun _ => true) (fun g => decide (g ≠ 0)) 0 (by decide) (by decide) (by decide)
  exact ⟨h.1, h.2.1⟩

/-- C7: if the cooperative stop flag is first observed set at the boundary
of group `k` (0-based) while `k` is not yet past the last group, and each
earlier group completed with its output, then the job's status becomes
已取消 (Cancelled), exactly the outputs of groups `0..k-1` exist, and no
later group is ever started. -/
theorem C7_cancellation_at_group_boundary
    (group_size k : ℕ) (image_listing audio_listing : List String)
    (stop_at has_segs concat_ok : ℕ → Bool)
    (himg : matching_files image_listing image_exts ≠ [])
    (haud : matching_files audio_listing audio_exts ≠ [])
    (hbefore : ∀ g, g < k → stop_at g = false)
    (hstop : stop_at k = true)
    (hk : k < (max (matching_files image_listing image_exts).length
          (matching_files audio_listing audio_exts).length
        + group_size - 1) / group_size)
    (hok : ∀ g, g < k → has_segs g = true ∧ concat_ok g = true) :
    process_job false group_size image_listing audio_listing stop_at
      has_segs concat_ok = (.cancelled, List.range k) := by
  unfold process_job
  rw [if_neg (by simp [himg]), if_neg (by simp [haud])]
  rw [List.range_eq_range']
  exact process_groups_cancel stop_at has_segs concat_ok k _ 0 hk
    (fun o ho => by simpa using hbefore o ho)
    (fun o ho => by simpa using hok o ho)
    (by simpa using hstop)

/-- C7 witness: three pairs with `group_size = 1` (three groups) and a stop
request granted at the boundary of group 1: group 0's output exists, groups
1 and 2 are never started, and the status is 已取消 (Cancelled). -/
theorem C7_witness :
    process_job false 1 demo_images demo_audios (fun g => decide (1 ≤ g))
      (fun _ => true) (fun _ => true) = (.cancelled, List.range 1) :=
  C7_cancellation_at_group_boundary 1 1 demo_images demo_audios
    (fun g => decide (1 ≤ g)) (fun _ => true) (fun _ => true)
    (by decide) (by decide)
    (by intro g hg; interval_cases g; decide) (by decide) (by decide)
    (by intro g hg; interval_cases g; exact ⟨rfl, rfl⟩)

/-- The group count computed by the code, `(n + group_size - 1) // group_size`,
is the ceiling of the rational `n / group_size`. -/
theorem group_count_eq_ceil (n group_size : ℕ) (hgs : 0 < group_size) :
    (n + group_size - 1) / group_size = ⌈(n : ℚ) / (group_size : ℚ)⌉₊ := by
  set L := (n + group_size - 1) / group_size with hL
  have hq : (0 : ℚ) < (group_size : ℚ) := by exact_mod_cast hgs
  have h1 : L * group_size ≤ n + group_size - 1 :=
    (Nat.le_div_iff_mul_le hgs).mp le_rfl
  have h2 : n + group_size - 1 < (L + 1) * group_size :=
    (Nat.div_lt_iff_lt_mul hgs).mp (Nat.lt_succ_self L)
  have e1 : (L + 1) * group_size = L * group_size + group_size := by ring
  have h3 : n ≤ L * group_size := by omega
  refine le_antisymm ?_ ?_
  · rcases Nat.eq_zero_or_pos L with h0 | hpos
    · rw [h0]; exact Nat.zero_le _
    · have e2 : (L - 1 + 1) * group_size = (L - 1) * group_size + group_size :=
        by ring
      have e3 : L - 1 + 1 = L := Nat.succ_pred_eq_of_pos hpos
      have h4 : (L - 1) * group_size < n := by
        rw [e3] at e2
        omega
      have h5 : ((L - 1 : ℕ) : ℚ) < (n : ℚ) / (group_size : ℚ) := by
        rw [lt_div_iff₀ hq]
        exact_mod_cast h4
      have := Nat.lt_ceil.mpr h5
      omega
  · refine Nat.ceil_le.mpr ?_
    rw [div_le_iff₀ hq]
    exact_mod_cast h3

/-- C8: under `merge_all` the job produces exactly one group spanning
`[0, n)`; otherwise the groups are the consecutive windows
`[i*group_size, min(i*group_size + group_size, n))`, each window (except
possibly the last) ends where the next begins with exactly `group_size`
indices, the last window is truncated at `n`, and the number of groups is
the ceiling of `n / group_size`. -/
theorem C8_grouping (n group_size : ℕ) (hgs : 0 < group_size) :
    group_ranges true n group_size = [(0, n)] ∧
    (group_ranges false n group_size).length = ⌈(n : ℚ) / (group_size : ℚ)⌉₊ ∧
    (∀ i, i < (group_ranges false n group_size).length →
      (group_ranges false n group_size)[i]? =
        some (i * group_size, min (i * group_size + group_size) n)) ∧
    (∀ i, i + 1 < (group_ranges false n group_size).length →
      min (i * group_size + group_size) n = (i + 1) * group_size) ∧
    (0 < n → (group_ranges false n group_size).getLast? =
      some (((n + group_size - 1) / group_size - 1) * group_size, n)) := by
  set L := (n + group_size - 1) / group_size with hL
  have h1 : L * group_size ≤ n + group_size - 1 :=
    (Nat.le_div_iff_mul_le hgs).mp le_rfl
  have h2 : n + group_size - 1 < (L + 1) * group_size :=
    (Nat.div_lt_iff_lt_mul hgs).mp (Nat.lt_succ_self L)
  have e1 : (L + 1) * group_size = L * group_size + group_size := by ring
  have h3 : n ≤ L * group_size := by omega
  have hlen : (group_ranges false n group_size).length = L := by
    rw [group_ranges, if_neg (by simp)]
    rw [List.length_map, List.length_range]
  refine ⟨by rw [group_ranges, if_pos rfl], ?_, ?_, ?_, ?_⟩
  · rw [hlen, hL, group_count_eq_ceil n group_size hgs]
  · intro i hi
    rw [hlen] at hi
    rw [group_ranges, if_neg (by simp), List.getElem?_map, List.getElem?_range hi]
    rfl
  · intro i hi
    rw [hlen] at hi
    have h4 : (i + 2) * group_size ≤ n + group_size - 1 :=
      (Nat.le_div_iff_mul_le hgs).mp (by omega)
    have e2 : (i + 2) * group_size = (i + 1) * group_size + group_size := by ring
    have h5 : (i + 1) * group_size ≤ n := by omega
    have e3 : i * group_size + group_size = (i + 1) * group_size := by ring
    rw [e3, Nat.min_eq_left h5]
  · intro hn
    have hLpos : 0 < L := by
      by_contra h0
      have hL0 : L = 0 := by omega
      rw [hL0] at h2
      omega
    have e2 : (L - 1 + 1) * group_size = (L - 1) * group_size + group_size := by
      ring
    have e3 : L - 1 + 1 = L := Nat.succ_pred_eq_of_pos hLpos
    have h6 : n ≤ (L - 1) * group_size + group_size := by
      rw [← e2, e3]
      exact h3
    rw [group_ranges, if_neg (by simp)]
    rw [List.getLast?_map]
    have hrange : (List.range L).getLast? = some (L - 1) := by
      rw [List.getLast?_eq_getElem?, List.length_range,
        List.getElem?_range (by omega : L - 1 < L)]
    rw [hrange]
    simp only [Option.map_some']
    rw [Nat.min_eq_right h6]

/-- C4: for a segment whose chosen class is hardware, a failed primary
encode leads to exactly one retry with the software (libx264) ladder and the
segment succeeds exactly when that retry does; with chosen class software
there is no retry and the segment succeeds exactly when the single attempt
does.  The same retry discipline holds for v1's `_safe_encode_video`
(failure or timeout of a VideoToolbox encode leads to exactly one software
fallback attempt; a software failure is final).  Finally, a segment's
membership in the group's concat list depends only on that segment's own
availability and encode outcome, so other segments' failures never remove
it — the group continues with the remaining segments. -/
theorem C4_hardware_fallback_once_and_group_continues :
    (∀ (hardware_encoders : List String) (choice pref res : String) (fps : ℕ)
        (p_ok f_ok : Bool),
      ((choose_codec hardware_encoders choice pref).2 = "hardware" →
        p_ok = false →
        encode_segment_attempts hardware_encoders choice pref p_ok =
          [(choose_codec hardware_encoders choice pref).1, "libx264"] ∧
        (encode_segment_result hardware_encoders choice pref res fps
          p_ok f_ok).isSome = f_ok) ∧
      ((choose_codec hardware_encoders choice pref).2 = "software" →
        encode_segment_attempts hardware_encoders choice pref p_ok =
          [(choose_codec hardware_encoders choice pref).1] ∧
        (encode_segment_result hardware_encoders choice pref res fps
          p_ok f_ok).isSome = p_ok)) ∧
    (∀ (codec : String) (primary : EncodeOutcome) (f_ok : Bool),
      primary ≠ .ok → is_videotoolbox codec = true →
      safe_encode_video codec primary f_ok = f_ok ∧
      safe_encode_fallback_attempts codec primary = 1) ∧
    (∀ (codec : String) (f_ok : Bool),
      is_videotoolbox codec = false →
      safe_encode_video codec .errored f_ok = false ∧
      safe_encode_video codec .timedOut f_ok = false ∧
      safe_encode_fallback_attempts codec .errored = 0) ∧
    (∀ (hardware_encoders : List String) (choice pref res : String) (fps : ℕ)
        (start_idx end_idx : ℕ) (available p_okf f_okf : ℕ → Bool)
        (i : ℕ) (P : SegmentParams),
      start_idx ≤ i → i < end_idx → available i = true →
      encode_segment_result hardware_encoders choice pref res fps
        (p_okf i) (f_okf i) = some P →
      P ∈ concat_inputs hardware_encoders choice pref res fps start_idx end_idx
        (fun _ => false) available p_okf f_okf) := by
  refine ⟨?_, ?_, ?_, ?_⟩
  · intro hardware_encoders choice pref res fps p_ok f_ok
    constructor
    · intro hhw hp
      subst hp
      constructor
      · simp [encode_segment_attempts, hhw]
      · rw [encode_segment_result]
        simp only [Bool.false_eq_true, if_false, hhw, if_pos rfl]
        cases f_ok <;> rfl
    · intro hsw
      constructor
      · have : ((choose_codec hardware_encoders choice pref).2 == "hardware") =
            false := by rw [hsw]; rfl
        simp [encode_segment_attempts, this]
      · rw [encode_segment_result]
        cases p_ok
        · simp only [Bool.false_eq_true, if_false, hsw]
          rfl
        · rfl
  · intro codec primary f_ok hne hvt
    cases primary
    · exact absurd rfl hne
    · exact ⟨by rw [safe_encode_video, hvt]; rfl,
        by rw [safe_encode_fallback_attempts, hvt]; rfl⟩
    · exact ⟨by rw [safe_encode_video, hvt]; rfl,
        by rw [safe_encode_fallback_attempts, hvt]; rfl⟩
  · intro codec f_ok hvt
    refine ⟨?_, ?_, ?_⟩
    · rw [safe_encode_video, hvt]; rfl
    · rw [safe_encode_video, hvt]; rfl
    · rw [safe_encode_fallback_attempts, hvt]; rfl
  · intro hardware_encoders choice pref res fps start_idx end_idx
      available p_okf f_okf i P hle hlt havail hres
    rw [concat_inputs]
    refine List.mem_filterMap.mpr ⟨i, ?_, hres⟩
    refine List.mem_filter.mpr ⟨?_, havail⟩
    rw [segment_indices_attempted]
    have ht : List.takeWhile (fun i => !(fun _ => false) i)
        (List.range' start_idx (end_idx - start_idx)) =
        List.range' start_idx (end_idx - start_idx) :=
      List.takeWhile_eq_self_iff.mpr (fun x _ => rfl)
    rw [ht]
    exact List.mem_range'_1.mpr ⟨hle, by omega⟩

/-- C4 witness: with only an H.264 hardware encoder, forced hardware choice
and a failing primary attempt, the attempt list is exactly the hardware
encoder followed by one libx264 retry, and the v1 path recovers a successful
result from a deterministically failing VideoToolbox encode. -/
theorem C4_witness :
    encode_segment_attempts ["h264_videotoolbox"] "hardware" "h264" false =
      ["h264_videotoolbox", "libx264"] ∧
    (encode_segment_result ["h264_videotoolbox"] "hardware" "h264" "1080p" 24
      false true).isSome = true ∧
    safe_encode_video "h264_videotoolbox" .errored true = true := by
  have h := C4_hardware_fallback_once_and_group_continues
  have h1 := (h.1 ["h264_videotoolbox"] "hardware" "h264" "1080p" 24
    false true).1 (by decide) rfl
  have h2 := h.2.1 "h264_videotoolbox" .errored true (by decide) (by decide)
  exact ⟨h1.1, h1.2, h2.1⟩

/-- A nonempty filename has a nonempty `splitext` root: either there is no
dot and the root is the whole name, or the root is the (then nonempty)
prefix before the last extension dot, or every character before the last
dot is a dot and the root is again the whole name. -/
theorem splitext_root_ne_nil (s : List Char) (h : s ≠ []) :
    splitext_root s ≠ [] := by
  unfold splitext_root
  split
  · exact h
  · split
    · next ha =>
      rcases List.any_eq_true.mp ha with ⟨c, hc, -⟩
      exact List.ne_nil_of_mem hc
    · exact h

/-- A nonempty filename has a nonempty stem. -/
theorem stem_of_ne_empty (f : String) (h : f ≠ "") : stem_of f ≠ "" := by
  have hd : f.data ≠ [] := by
    intro hnil
    exact h (String.ext_iff.mpr hnil)
  intro hc
  exact splitext_root_ne_nil f.data hd (String.ext_iff.mp hc)

/-- The last element of a nonempty cons list, via `getLastD`. -/
theorem getLast_cons_eq_getLastD (a : String) (l : List String) :
    (a :: l).getLast (List.cons_ne_nil a l) = l.getLastD a := by
  induction l generalizing a with
  | nil => rfl
  | cons b t ih =>
    rw [List.getLast_cons (List.cons_ne_nil b t), List.getLastD_cons]
    exact ih b

/-- Folding the first/last accumulation from a state whose first component
is already a nonempty stem keeps that first component and ends on the last
element (or the current one if none follow). -/
theorem first_last_fold (l : List String) :
    ∀ (a b : String), a ≠ "" →
      l.foldl (fun fl s => (if fl.1 = "" then s else fl.1, s)) (a, b) =
        (a, l.getLastD b) := by
  induction l with
  | nil => intro a b _; rfl
  | cons s t ih =>
    intro a b ha
    rw [List.foldl_cons, List.getLastD_cons]
    have : ((if a = "" then s else a : String), s) = (a, s) := by
      rw [if_neg ha]
    rw [this]
    exact ih a s ha

/-- On a nonempty list of nonempty stems, the accumulated pair is exactly
(first stem, last stem). -/
theorem first_last_stem_spec (x : String) (rest : List String)
    (hx : x ≠ "") :
    first_last_stem (x :: rest) =
      (x, (x :: rest).getLast (List.cons_ne_nil x rest)) := by
  rw [first_last_stem, List.foldl_cons]
  have h0 : ((if ("" : String) = "" then x else ""), x) = (x, x) := by
    rw [if_pos rfl]
  rw [h0, first_last_fold rest x x hx, getLast_cons_eq_getLastD]

/-- Every element of `matched_stems` is the stem of an actual image file. -/
theorem matched_stems_mem (image_files : List String) (start_idx end_idx : ℕ)
    (s : String) (hs : s ∈ matched_stems image_files start_idx end_idx) :
    ∃ f ∈ image_files, s = stem_of f := by
  rw [matched_stems] at hs
  rcases List.mem_map.mp hs with ⟨i, hi, rfl⟩
  rcases List.mem_filter.mp hi with ⟨-, hilen⟩
  have hlt : i < image_files.length := by exact_mod_cast of_decide_eq_true hilen
  refine ⟨image_files.getD i "", ?_, rfl⟩
  rw [List.getD_eq_getElem image_files "" hlt]
  exact List.getElem_mem hlt

/-- C9: a group with at least one matched image stem is named
`<first>.mp4` when its first and last matched stems coincide and
`<first>-<last>.mp4` otherwise; a group with no matched image index gets
`video_group_<NNN>.mp4` with the 1-based group number zero-padded to three
digits.  (Filenames listed from a folder are never empty, whence the
hypothesis.) -/
theorem C9_output_filenames (image_files : List String)
    (start_idx end_idx group_num : ℕ)
    (hne : ∀ f ∈ image_files, f ≠ "") :
    (matched_stems image_files start_idx end_idx = [] →
      group_output_filename image_files start_idx end_idx group_num =
        "video_group_" ++ pad3 group_num ++ ".mp4") ∧
    (∀ (x : String) (rest : List String),
      matched_stems image_files start_idx end_idx = x :: rest →
      group_output_filename image_files start_idx end_idx group_num =
        (if x = (x :: rest).getLast (List.cons_ne_nil x rest)
         then x ++ ".mp4"
         else x ++ "-" ++ (x :: rest).getLast (List.cons_ne_nil x rest)
           ++ ".mp4")) := by
  constructor
  · intro hempty
    rw [group_output_filename, hempty]
    rfl
  · intro x rest heq
    have hx : x ≠ "" := by
      rcases matched_stems_mem image_files start_idx end_idx x
        (by rw [heq]; exact List.mem_cons_self x rest) with ⟨f, hf, rfl⟩
      exact stem_of_ne_empty f (hne f hf)
    have hlast : (x :: rest).getLast (List.cons_ne_nil x rest) ≠ "" := by
      rcases matched_stems_mem image_files start_idx end_idx
        ((x :: rest).getLast (List.cons_ne_nil x rest))
        (by rw [heq]; exact List.getLast_mem (List.cons_ne_nil x rest))
        with ⟨f, hf, hfe⟩
      rw [hfe]
      exact stem_of_ne_empty f (hne f hf)
    rw [group_output_filename, heq, first_last_stem_spec x rest hx]
    rw [if_pos ⟨hx, hlast⟩]

/-- C9 witness: images `a1.png, a2.png, a3.png` with `group_size = 2` give
the window `[0,2)` named `a1-a2.mp4` and the window `[2,4)` named
`a3.mp4`. -/
theorem C9_witness :
    group_output_filename demo_images 0 2 1 = "a1-a2.mp4" ∧
    group_output_filename demo_images 2 4 2 = "a3.mp4" := by
  have h1 := (C9_output_filenames demo_images 0 2 1 (by decide)).2
    "a1" ["a2"] (by decide)
  have h2 := (C9_output_filenames demo_images 2 4 2 (by decide)).2
    "a3" [] (by decide)
  rw [h1, h2]
  constructor
  · rw [if_neg (by decide)]
    decide
  · rw [if_pos (by decide)]
    decide

/-- C8 witness: with 5 total indices and `group_size = 2` the theorem gives
3 groups; evaluating the embedded code shows they are the windows
`[0,2)`, `[2,4)`, `[4,5)` — the claim's `[0,1], [2,3], [4]`. -/
theorem C8_witness :
    (group_ranges false 5 2).length = ⌈(5 : ℚ) / (2 : ℚ)⌉₊ ∧
    group_ranges true 5 2 = [(0, 5)] ∧
    group_ranges false 5 2 = [(0, 2), (2, 4), (4, 5)] :=
  ⟨(C8_grouping 5 2 (by decide)).2.1, (C8_grouping 5 2 (by decide)).1, by decide⟩

/-- If `dropWhile p` produces a cons, its head fails `p`. -/
theorem dropWhile_head_false {α : Type} {p : α → Bool} :
    ∀ (l : List α) (a : α) (t : List α),
      l.dropWhile p = a :: t → p a = false := by
  intro l
  induction l with
  | nil => intro a t h; simp at h
  | cons x xs ih =>
    intro a t h
    rw [List.dropWhile_cons] at h
    by_cases hx : p x = true
    · rw [if_pos hx] at h
      exact ih a t h
    · rw [if_neg hx] at h
      cases h
      exact Bool.not_eq_true _ |>.mp hx

/-- Every character of every run produced by the splitter is a character of
the input. -/
theorem split_digit_runs_fuel_chars :
    ∀ (fuel : ℕ) (cs run : List Char),
      run ∈ split_digit_runs_fuel fuel cs → ∀ c ∈ run, c ∈ cs := by
  intro fuel
  induction fuel with
  | zero => intro cs run h; simp [split_digit_runs_fuel] at h
  | succ fuel ih =>
    intro cs run hrun c hc
    rw [split_digit_runs_fuel] at hrun
    rcases hrest : cs.dropWhile (fun ch => !is_ascii_digit ch) with _ | ⟨d, tl⟩
    · rw [hrest] at hrun
      simp only [List.mem_singleton] at hrun
      subst hrun
      exact (List.takeWhile_sublist _).subset hc
    · rw [hrest] at hrun
      simp only [List.mem_cons] at hrun
      rcases hrun with rfl | rfl | hrun
      · exact (List.takeWhile_sublist _).subset hc
      · have h1 : c ∈ d :: tl := (List.takeWhile_sublist _).subset hc
        rw [← hrest] at h1
        exact (List.dropWhile_sublist _).subset h1
      · have h1 := ih _ run hrun c hc
        have h2 : c ∈ d :: tl := (List.dropWhile_sublist _).subset h1
        rw [← hrest] at h2
        exact (List.dropWhile_sublist _).subset h2

/-- A text run (maximal run of non-ASCII-digit characters) of an
ASCII-digit-clean string never passes Python `isdigit`: it is either empty
or starts with a character that is not a digit at all. -/
theorem text_run_not_isdigit (cs : List Char) (hclean : ascii_digit_clean cs) :
    python_isdigit (cs.takeWhile (fun ch => !is_ascii_digit ch)) = false := by
  rcases htw : cs.takeWhile (fun ch => !is_ascii_digit ch) with _ | ⟨c0, t0⟩
  · rfl
  · have hmem : c0 ∈ cs.takeWhile (fun ch => !is_ascii_digit ch) := by
      rw [htw]; exact List.mem_cons_self c0 t0
    have hnd := List.mem_takeWhile_imp hmem
    have hin : c0 ∈ cs := (List.takeWhile_sublist _).subset hmem
    have hval : (python_digit_val? c0).isSome = false := by
      by_contra hcon
      have hsome : (python_digit_val? c0).isSome = true := by
        revert hcon; cases (python_digit_val? c0).isSome <;> simp
      have := hclean c0 hin hsome
      rw [this] at hnd
      simp at hnd
    rw [python_isdigit]
    simp [python_isdigit_char, hval]

/-- A digit run (here: starting from a character known to be an ASCII
digit) always passes Python `isdigit`. -/
theorem digit_run_isdigit (d : Char) (tl : List Char)
    (hd : is_ascii_digit d = true) :
    python_isdigit ((d :: tl).takeWhile is_ascii_digit) = true := by
  rw [List.takeWhile_cons_of_pos hd, python_isdigit]
  simp only [List.isEmpty_cons, Bool.not_false, Bool.true_and]
  rw [List.all_eq_true]
  intro c hcmem
  have hcd : is_ascii_digit c = true := by
    rcases List.mem_cons.mp hcmem with rfl | hmemt
    · exact hd
    · exact List.mem_takeWhile_imp hmemt
  have hcd' : c.isDigit = true := hcd
  rw [python_isdigit_char, python_digit_val?, if_pos hcd']
  rfl

/-- For an ASCII-digit-clean input the mapped key alternates kinds starting
with a `str` token: the splitter's runs at even positions contain no ASCII
digit (hence fail `isdigit` and stay strings — cleanness rules out non-ASCII
digit runs), and the runs at odd positions are nonempty ASCII digit runs
(hence become integers). -/
theorem natural_sort_key_kinds_fuel :
    ∀ (fuel : ℕ) (cs : List Char), cs.length < fuel → ascii_digit_clean cs →
      kinds_from false ((split_digit_runs_fuel fuel cs).map key_elem_of) := by
  intro fuel
  induction fuel with
  | zero => intro cs h; omega
  | succ fuel ih =>
    intro cs hlen hclean
    rcases hrest : cs.dropWhile (fun ch => !is_ascii_digit ch) with _ | ⟨d, tl⟩
    · simp only [split_digit_runs_fuel, hrest, List.map_cons, List.map_nil,
        kinds_from]
      refine ⟨?_, trivial⟩
      rw [key_elem_of, if_neg (by
        rw [text_run_not_isdigit cs hclean]; exact Bool.false_ne_true)]
      exact ⟨_, rfl⟩
    · have hd1 : is_ascii_digit d = true := by
        have := dropWhile_head_false cs d tl hrest
        revert this
        cases is_ascii_digit d <;> simp
      simp only [split_digit_runs_fuel, hrest, List.map_cons, kinds_from]
      refine ⟨?_, ?_, ?_⟩
      · rw [key_elem_of, if_neg (by
          rw [text_run_not_isdigit cs hclean]; exact Bool.false_ne_true)]
        exact ⟨_, rfl⟩
      · rw [key_elem_of, if_pos (digit_run_isdigit d tl hd1)]
        exact ⟨_, rfl⟩
      · have hlen1 : (d :: tl).length ≤ cs.length := by
          have := (List.dropWhile_sublist
            (fun ch => !is_ascii_digit ch) (l := cs)).length_le
          rwa [hrest] at this
        have hlen2 : (List.dropWhile is_ascii_digit (d :: tl)).length ≤
            tl.length := by
          rw [List.dropWhile_cons_of_pos hd1]
          exact (List.dropWhile_sublist _).length_le
        refine ih _ ?_ ?_
        · simp only [List.length_cons] at hlen1
          omega
        · intro c hcmem hcval
          have h1 : c ∈ d :: tl := (List.dropWhile_sublist _).subset hcmem
          rw [← hrest] at h1
          exact hclean c ((List.dropWhile_sublist _).subset h1) hcval

/-- Two keys following the same kind pattern are always comparable: at every
position the element kinds coincide, so the element comparison never hits
the mixed `int`/`str` case. -/
theorem compare_keys_ne_none :
    ∀ (par : Bool) (a b : List SortKeyElem),
      kinds_from par a → kinds_from par b → compare_keys a b ≠ none := by
  intro par a
  induction a generalizing par with
  | nil =>
    intro b _ _
    cases b <;> simp [compare_keys]
  | cons x s ih =>
    intro b ha hb
    cases b with
    | nil => simp [compare_keys]
    | cons y t =>
      cases par
      · rcases ha with ⟨⟨sx, rfl⟩, has⟩
        rcases hb with ⟨⟨sy, rfl⟩, hbs⟩
        rcases hcmp : compare sx sy with hc | hc | hc <;>
          simp [compare_keys, compare_elem, hcmp]
        exact ih true t has hbs
      · rcases ha with ⟨⟨nx, rfl⟩, has⟩
        rcases hb with ⟨⟨ny, rfl⟩, hbs⟩
        rcases hcmp : compare nx ny with hc | hc | hc <;>
          simp [compare_keys, compare_elem, hcmp]
        exact ih false t has hbs

/-- C10 counterexample: for the filename `٣٣1.png` (two ARABIC-INDIC digits,
which are not matched by the splitting regex `[0-9]` but do pass Python
`str.isdigit`), the key's element at even position 0 is the integer 33, not
a text run; comparing this key with the key of the ordinary name `ab1.png`
compares an integer with a string — in Python, a `TypeError` from
`sorted`. -/
theorem C10_counterexample :
    (natural_sort_key arabic_demo).head? = some (SortKeyElem.intElem 33) ∧
    compare_keys (natural_sort_key arabic_demo)
      (natural_sort_key ascii_demo) = none := by
  decide

/-- C10 (amended): for filenames containing no non-ASCII Unicode decimal
digit character, the natural-sort key does have text runs at even positions
and integers at odd positions, so comparing any two such keys never compares
an integer with a string and the sort is well-defined.  A text run made
entirely of non-ASCII Unicode decimal digits, however, is converted to an
integer at an even position (see the counterexample). -/
theorem C10_clean_keys_never_mix (s1 s2 : List Char)
    (h1 : ascii_digit_clean s1) (h2 : ascii_digit_clean s2) :
    compare_keys (natural_sort_key s1) (natural_sort_key s2) ≠ none := by
  refine compare_keys_ne_none false _ _ ?_ ?_
  · rw [natural_sort_key, split_digit_runs]
    exact natural_sort_key_kinds_fuel (s1.length + 1) s1 (Nat.lt_succ_self _) h1
  · rw [natural_sort_key, split_digit_runs]
    exact natural_sort_key_kinds_fuel (s2.length + 1) s2 (Nat.lt_succ_self _) h2

/-- C10 witness: the ASCII filenames `img2.png` and `img10.png` are clean,
so the theorem applies and their keys compare without a type error. -/
theorem C10_witness :
    compare_keys (natural_sort_key ['i', 'm', 'g', '2', '.', 'p', 'n', 'g'])
      (natural_sort_key ['i', 'm', 'g', '1', '0', '.', 'p', 'n', 'g']) ≠
      none :=
  C10_clean_keys_never_mix ['i', 'm', 'g', '2', '.', 'p', 'n', 'g']
    ['i', 'm', 'g', '1', '0', '.', 'p', 'n', 'g'] (by decide) (by decide)

end VideoCombinator
